import Mathlib

/-!
# go-oauth2-gorm: token store and client store

A shallow embedding of `token_store.go` and `client_store.go`.

Modelling conventions
* The gorm handle `s.db.Table(s.tableName)` is the table it addresses: the rows in
  storage order together with the auto-increment counter of the primary key.
* Every gorm call chain ends in `.Error`; the outcome of the storage engine is an
  explicit argument `fault : Option String` (`none`: the statement ran, `some e`:
  it failed with message `e`).  A failed statement leaves the table as it was.
* SQL `=` on the string columns is exact string equality; a query without
  `ORDER BY` yields rows in storage order.
* `time.Time` is the pair of machine words `wall` (`uint64`) and `ext` (`int64`) of the
  Go runtime, without the location; `Time.Add` and `Time.Unix` follow the Go sources,
  with the saturation of the second count and the `int64` wrap-around.
  `time.Duration` is an `int64` number of nanoseconds.
* `encoding/json` is a parameter (`Codec`), except that `json.Unmarshal` rejects
  empty input before it decodes anything.
* A Go `error` is its message; a nil interface or nil error is `none`.
-/

namespace oauth2gorm

/-! ## time -/

/-- Conversion of an integer to `int64` (two's complement wrap-around). -/
def wrapInt64 (x : Int) : Int :=
  (x + 9223372036854775808) % 18446744073709551616 - 9223372036854775808

/-- Instant of time (`time.Time` without its location).  `wall` is a `uint64`: bit 63 is the
flag `hasMonotonic`, the low 30 bits are the nanoseconds, and with the flag set the 33 bits
in between are the seconds since January 1, 1885.  `ext` is an `int64`: the monotonic clock
reading when the flag is set, otherwise the seconds since January 1, year 1. -/
structure Time where
  wall : Nat
  ext : Int
deriving DecidableEq, Repr, Inhabited

/-- Elapsed time (`time.Duration`): an `int64` number of nanoseconds. -/
abbrev Duration := Int

/-- The test `t.wall&hasMonotonic != 0`. -/
def Time.hasMonotonic (t : Time) : Bool := decide (t.wall / 9223372036854775808 % 2 = 1)

/-- `nsec`: the nanoseconds `int32(t.wall & nsecMask)`. -/
def Time.nsec (t : Time) : Int := ((t.wall % 1073741824 : Nat) : Int)

/-- `sec`: the seconds since January 1, year 1; `59453308800` is `wallToInternal` and the
packed seconds are `t.wall<<1>>(nsecShift+1)`. -/
def Time.sec (t : Time) : Int :=
  if t.hasMonotonic then
    59453308800 + ((t.wall % 9223372036854775808 / 1073741824 : Nat) : Int)
  else t.ext

/-- `stripMono`: drops the monotonic clock reading. -/
def Time.stripMono (t : Time) : Time :=
  if t.hasMonotonic then { wall := t.wall % 1073741824, ext := t.sec } else t

/-- `addSec`: adds `d` seconds; the packed seconds are kept while they fit in 33 bits, and
the sum in `ext` saturates at the ends of the `int64` range. -/
def Time.addSec (t : Time) (d : Int) : Time :=
  let sec : Int := ((t.wall % 9223372036854775808 / 1073741824 : Nat) : Int)
  let dsec := wrapInt64 (sec + d)
  if t.hasMonotonic ∧ 0 ≤ dsec ∧ dsec ≤ 8589934591 then
    { t with wall := t.wall % 1073741824 + dsec.toNat * 1073741824 + 9223372036854775808 }
  else
    let t := t.stripMono
    let sum := wrapInt64 (t.ext + d)
    if decide (sum > t.ext) = decide (d > 0) then { t with ext := sum }
    else if d > 0 then { t with ext := 9223372036854775807 }
    else { t with ext := -9223372036854775807 }

/-- The instant `t + d` (`Time.Add`); Go's `/` and `%` truncate toward zero. -/
def Time.Add (t : Time) (d : Duration) : Time :=
  let dsec := Int.tdiv d 1000000000
  let nsec := t.nsec + Int.tmod d 1000000000
  let dn : Int × Int :=
    if nsec ≥ 1000000000 then (dsec + 1, nsec - 1000000000)
    else if nsec < 0 then (dsec - 1, nsec + 1000000000)
    else (dsec, nsec)
  let t : Time := { t with wall := t.wall - t.wall % 1073741824 + dn.2.toNat }
  let t := t.addSec dn.1
  if t.hasMonotonic then
    let te := wrapInt64 (t.ext + d)
    if (d < 0 ∧ te > t.ext) ∨ (d > 0 ∧ te < t.ext) then t.stripMono
    else { t with ext := te }
  else t

/-- Seconds since the Unix epoch (`Time.Unix`): `t.sec() + internalToUnix` in `int64`, with
`internalToUnix = -62135596800`. -/
def Time.Unix (t : Time) : Int := wrapInt64 (t.sec + -62135596800)

/-- The exact number of nanoseconds between the Unix epoch and the instant `t`. -/
def Time.exactUnixNano (t : Time) : Int := (t.sec + -62135596800) * 1000000000 + t.nsec

/-- Range in which the arithmetic of `Time.Add` and `Time.Unix` is exact: `wall` is a
`uint64` whose nanoseconds are below one second, `d` is an `int64`, and the instant is within
`2^62` seconds of January 1, year 1. -/
def Time.InRange (t : Time) (d : Duration) : Prop :=
  t.wall < 18446744073709551616 ∧ t.nsec < 1000000000 ∧
  (-9223372036854775808 : Int) ≤ d ∧ d < (9223372036854775808 : Int) ∧
  -4611686018427387904 ≤ t.sec ∧ t.sec ≤ 4611686018427387904

instance (t : Time) (d : Duration) : Decidable (t.InRange d) := by
  unfold Time.InRange
  infer_instance

/-! ## encoding/json -/

/-- The encoder and decoder that `encoding/json` provides for a Go type.  `decode`
yields the target value after the call and the error of the call. -/
structure Codec (α : Type) where
  encode : α → Except String String
  decode : String → α × Option String

/-- The call `json.Marshal(v)`. -/
def jsonMarshal {α : Type} (c : Codec α) (v : α) : Except String String := c.encode v

/-- The call `json.Unmarshal(data, &v)` on a zero-valued `v`: empty input is a syntax
error and leaves `v` untouched. -/
def jsonUnmarshal {α : Type} [Inhabited α] (c : Codec α) (data : String) : α × Option String :=
  if data = "" then (default, some "unexpected end of JSON input") else c.decode data

/-! ## token values -/

/-- Token value behind the interface `oauth2.TokenInfo` (the fields of `models.Token`). -/
structure TokenInfo where
  ClientID : String
  UserID : String
  RedirectURI : String
  Scope : String
  Code : String
  CodeChallenge : String
  CodeChallengeMethod : String
  CodeCreateAt : Time
  CodeExpiresIn : Duration
  Access : String
  AccessCreateAt : Time
  AccessExpiresIn : Duration
  Refresh : String
  RefreshCreateAt : Time
  RefreshExpiresIn : Duration
deriving DecidableEq, Repr

instance : Inhabited TokenInfo :=
  ⟨⟨"", "", "", "", "", "", "", ⟨0, 0⟩, 0, "", ⟨0, 0⟩, 0, "", ⟨0, 0⟩, 0⟩⟩

def TokenInfo.GetCode (t : TokenInfo) : String := t.Code
def TokenInfo.GetCodeCreateAt (t : TokenInfo) : Time := t.CodeCreateAt
def TokenInfo.GetCodeExpiresIn (t : TokenInfo) : Duration := t.CodeExpiresIn
def TokenInfo.GetAccess (t : TokenInfo) : String := t.Access
def TokenInfo.GetAccessCreateAt (t : TokenInfo) : Time := t.AccessCreateAt
def TokenInfo.GetAccessExpiresIn (t : TokenInfo) : Duration := t.AccessExpiresIn
def TokenInfo.GetRefresh (t : TokenInfo) : String := t.Refresh
def TokenInfo.GetRefreshCreateAt (t : TokenInfo) : Time := t.RefreshCreateAt
def TokenInfo.GetRefreshExpiresIn (t : TokenInfo) : Duration := t.RefreshExpiresIn

/-! ## token table -/

/-- Row of the token table. -/
structure TokenStoreItem where
  ID : Nat
  ExpiredAt : Int
  Code : String
  Access : String
  Refresh : String
  Data : String
deriving DecidableEq, Repr

/-- The zero value `TokenStoreItem{}`. -/
instance : Inhabited TokenStoreItem := ⟨⟨0, 0, "", "", "", ""⟩⟩

/-- Token table: its rows in storage order and the last primary key handed out. -/
structure Table where
  rows : List TokenStoreItem
  autoInc : Nat
deriving DecidableEq, Repr

/-- Insert (`Create(item)`): a zero primary key is replaced by the next auto-increment
value. -/
def Table.Create (t : Table) (item : TokenStoreItem) : Table :=
  let id := if item.ID = 0 then t.autoInc + 1 else item.ID
  { rows := t.rows ++ [{ item with ID := id }], autoInc := max t.autoInc id }

/-- Select into a zero-valued struct (`Where(cond).Find(&item)`): the first row that
satisfies the condition is scanned into `item`; with no such row `item` stays zero. -/
def Table.Find (t : Table) (cond : TokenStoreItem → Bool) : TokenStoreItem :=
  (t.rows.find? cond).getD default

/-- Column update (`Where(cond).Update(column, value)`): `set` is applied to every row that
satisfies the condition. -/
def Table.Update (t : Table) (cond : TokenStoreItem → Bool)
    (set : TokenStoreItem → TokenStoreItem) : Table :=
  { t with rows := t.rows.map (fun r => if cond r then set r else r) }

/-- Row count (`Where(cond).Count(&count)`). -/
def Table.Count (t : Table) (cond : TokenStoreItem → Bool) : Int :=
  ((t.rows.filter cond).length : Int)

/-- Hard delete (`Where(cond).Unscoped().Delete(&TokenStoreItem{})`). -/
def Table.Delete (t : Table) (cond : TokenStoreItem → Bool) : Table :=
  { t with rows := t.rows.filter (fun r => !cond r) }

/-! ## TokenStore -/

/-- Token store: the table behind `db`/`tableName` and the diagnostic sink `stdout` (the
text written so far, `none` for a nil writer). -/
structure TokenStore where
  db : Table
  stdout : Option (List String)
deriving DecidableEq, Repr

/-- `SetStdout`. -/
def TokenStore.SetStdout (s : TokenStore) (stdout : Option (List String)) : TokenStore :=
  { s with stdout := stdout }

/-- `errorf`, with the message already formatted. -/
def TokenStore.errorf (s : TokenStore) (buf : String) : TokenStore :=
  match s.stdout with
  | some out => { s with stdout := some (out ++ [buf]) }
  | none => s

/-- One firing of the ticker: the clock reading `time.Now().Unix()` and the outcomes of the
count and delete statements. -/
structure Tick where
  now : Int
  countFault : Option String
  deleteFault : Option String
deriving DecidableEq, Repr

/-- The condition `expired_at <= now OR (code = '' and access = '' AND refresh = '')`. -/
def gcWhere (now : Int) (r : TokenStoreItem) : Bool :=
  decide (r.ExpiredAt ≤ now) || (r.Code == "" && r.Access == "" && r.Refresh == "")

/-- Body of the loop of `gc` for one tick; the flag tells whether the loop goes on
(`false` is the `return`). -/
def TokenStore.gcTick (s : TokenStore) (tk : Tick) : TokenStore × Bool :=
  match tk.countFault with
  | some err => (s.errorf ("[ERROR]:" ++ err ++ "\n"), false)
  | none =>
    let count := s.db.Count (gcWhere tk.now)
    if count > 0 then
      match tk.deleteFault with
      | some err => (s.errorf ("[ERROR]:" ++ err ++ "\n"), true)
      | none => ({ s with db := s.db.Delete (gcWhere tk.now) }, true)
    else (s, true)

/-- The loop `for range s.ticker.C` of `gc` over the ticks the channel delivers. -/
def TokenStore.gc (s : TokenStore) : List Tick → TokenStore
  | [] => s
  | tk :: rest =>
    match s.gcTick tk with
    | (s', true) => s'.gc rest
    | (s', false) => s'

/-- `Create`: the new store and the returned error. -/
def TokenStore.Create (s : TokenStore) (c : Codec TokenInfo) (fault : Option String)
    (info : TokenInfo) : TokenStore × Option String :=
  match jsonMarshal c info with
  | .error err => (s, some err)
  | .ok jv =>
    let item : TokenStoreItem := { (default : TokenStoreItem) with Data := jv }
    let item :=
      if info.GetCode ≠ "" then
        { item with
          Code := info.GetCode
          ExpiredAt := (info.GetCodeCreateAt.Add info.GetCodeExpiresIn).Unix }
      else
        let item := { item with
          Access := info.GetAccess
          ExpiredAt := (info.GetAccessCreateAt.Add info.GetAccessExpiresIn).Unix }
        if info.GetRefresh ≠ "" then
          { item with
            Refresh := info.GetRefresh
            ExpiredAt := (info.GetRefreshCreateAt.Add info.GetRefreshExpiresIn).Unix }
        else item
    match fault with
    | some err => (s, some err)
    | none => ({ s with db := s.db.Create item }, none)

/-- `RemoveByCode`. -/
def TokenStore.RemoveByCode (s : TokenStore) (fault : Option String) (code : String) :
    TokenStore × Option String :=
  match fault with
  | some err => (s, some err)
  | none => ({ s with db := s.db.Update (fun r => r.Code == code) (fun r => { r with Code := "" }) }, none)

/-- `RemoveByAccess`. -/
def TokenStore.RemoveByAccess (s : TokenStore) (fault : Option String) (access : String) :
    TokenStore × Option String :=
  match fault with
  | some err => (s, some err)
  | none =>
    ({ s with db := s.db.Update (fun r => r.Access == access) (fun r => { r with Access := "" }) }, none)

/-- `RemoveByRefresh`. -/
def TokenStore.RemoveByRefresh (s : TokenStore) (fault : Option String) (refresh : String) :
    TokenStore × Option String :=
  match fault with
  | some err => (s, some err)
  | none =>
    ({ s with db := s.db.Update (fun r => r.Refresh == refresh) (fun r => { r with Refresh := "" }) },
      none)

/-- `toTokenInfo`: nil when the payload does not decode. -/
def TokenStore.toTokenInfo (_s : TokenStore) (c : Codec TokenInfo) (data : String) :
    Option TokenInfo :=
  match jsonUnmarshal c data with
  | (_, some _) => none
  | (tm, none) => some tm

/-- `GetByCode`: the returned token and error. -/
def TokenStore.GetByCode (s : TokenStore) (c : Codec TokenInfo) (fault : Option String)
    (code : String) : Option TokenInfo × Option String :=
  if code = "" then (none, none)
  else
    match fault with
    | some err => (none, some err)
    | none =>
      let item := s.db.Find (fun r => r.Code == code)
      if item.ID = 0 then (none, none)
      else (s.toTokenInfo c item.Data, none)

/-- `GetByAccess`: the returned token and error. -/
def TokenStore.GetByAccess (s : TokenStore) (c : Codec TokenInfo) (fault : Option String)
    (access : String) : Option TokenInfo × Option String :=
  if access = "" then (none, none)
  else
    match fault with
    | some err => (none, some err)
    | none =>
      let item := s.db.Find (fun r => r.Access == access)
      if item.ID = 0 then (none, none)
      else (s.toTokenInfo c item.Data, none)

/-- `GetByRefresh`: the returned token and error. -/
def TokenStore.GetByRefresh (s : TokenStore) (c : Codec TokenInfo) (fault : Option String)
    (refresh : String) : Option TokenInfo × Option String :=
  if refresh = "" then (none, none)
  else
    match fault with
    | some err => (none, some err)
    | none =>
      let item := s.db.Find (fun r => r.Refresh == refresh)
      if item.ID = 0 then (none, none)
      else (s.toTokenInfo c item.Data, none)

/-! ## ClientStore -/

/-- Client value behind the interface `oauth2.ClientInfo` (the fields of `models.Client`). -/
structure ClientInfo where
  ID : String
  Secret : String
  Domain : String
  Public : Bool
  UserID : String
deriving DecidableEq, Repr

instance : Inhabited ClientInfo := ⟨⟨"", "", "", false, ""⟩⟩

def ClientInfo.GetID (c : ClientInfo) : String := c.ID
def ClientInfo.GetSecret (c : ClientInfo) : String := c.Secret
def ClientInfo.GetDomain (c : ClientInfo) : String := c.Domain

/-- Row of the client table. -/
structure ClientStoreItem where
  ID : String
  Secret : String
  Domain : String
  Data : String
deriving DecidableEq, Repr

/-- The zero value `ClientStoreItem{}`. -/
instance : Inhabited ClientStoreItem := ⟨⟨"", "", "", ""⟩⟩

/-- Client store: the rows of the table behind `db`/`tableName`, in storage order. -/
structure ClientStore where
  db : List ClientStoreItem
  stdout : Option (List String)
deriving DecidableEq, Repr

/-- `toClientInfo`: the decoded client, never nil, and the error of the decoding. -/
def ClientStore.toClientInfo (_s : ClientStore) (c : Codec ClientInfo) (data : String) :
    Option ClientInfo × Option String :=
  match jsonUnmarshal c data with
  | (cm, err) => (some cm, err)

/-- `GetByID`: the returned client and error. -/
def ClientStore.GetByID (s : ClientStore) (c : Codec ClientInfo) (fault : Option String)
    (id : String) : Option ClientInfo × Option String :=
  if id = "" then (none, none)
  else
    match fault with
    | some err => (none, some err)
    | none =>
      let item : ClientStoreItem := (s.db.find? (fun r => r.ID == id)).getD default
      s.toClientInfo c item.Data

/-- `Create` of the client store. -/
def ClientStore.Create (s : ClientStore) (c : Codec ClientInfo) (fault : Option String)
    (info : ClientInfo) : ClientStore × Option String :=
  match jsonMarshal c info with
  | .error err => (s, some err)
  | .ok data =>
    let item : ClientStoreItem :=
      { ID := info.GetID, Secret := info.GetSecret, Domain := info.GetDomain, Data := data }
    match fault with
    | some err => (s, some err)
    | none => ({ s with db := s.db ++ [item] }, none)


/-! ## Concrete values used to instantiate the theorems -/

/-- Codec given by a finite dictionary of payloads and values. -/
def Codec.ofList {α : Type} [DecidableEq α] [Inhabited α] (tbl : List (String × α)) : Codec α where
  encode v :=
    match tbl.find? (fun p => decide (p.2 = v)) with
    | some p => .ok p.1
    | none => .error "json: unsupported value"
  decode data :=
    match tbl.find? (fun p => p.1 == data) with
    | some p => (p.2, none)
    | none => (default, some "invalid character")

/-- Authorization-code token: code `CODE1`, created at Unix second 1000 (second 62135597800
since year 1), TTL 600 s. -/
def tokenCode : TokenInfo :=
  { (default : TokenInfo) with
    ClientID := "c1", Code := "CODE1", CodeCreateAt := ⟨0, 62135597800⟩,
    CodeExpiresIn := 600000000000 }

/-- Access-only token: access `A1`, created at Unix second 1000 with a monotonic clock
reading (packed seconds 2682289000 since 1885), TTL 3600 s. -/
def tokenAccess : TokenInfo :=
  { (default : TokenInfo) with
    ClientID := "c1", Access := "A1", AccessCreateAt := ⟨12103457920209911808, 5000000000⟩,
    AccessExpiresIn := 3600000000000 }

/-- Access and refresh token whose refresh TTL (1800 s) is shorter than its access TTL
(7200 s). -/
def tokenRefresh : TokenInfo :=
  { (default : TokenInfo) with
    ClientID := "c1", Access := "A2", AccessCreateAt := ⟨0, 62135597800⟩,
    AccessExpiresIn := 7200000000000, Refresh := "R2", RefreshCreateAt := ⟨0, 62135597800⟩,
    RefreshExpiresIn := 1800000000000 }

/-- Token that carries a code and an access value at once. -/
def tokenCodeAccess : TokenInfo :=
  { (default : TokenInfo) with
    ClientID := "c1", Code := "CODE3", CodeCreateAt := ⟨0, 62135597800⟩,
    CodeExpiresIn := 600000000000, Access := "A3", AccessCreateAt := ⟨0, 62135597800⟩,
    AccessExpiresIn := 3600000000000 }

/-- Token that carries a refresh value only. -/
def tokenRefreshOnly : TokenInfo :=
  { (default : TokenInfo) with
    ClientID := "c1", Refresh := "R4", RefreshCreateAt := ⟨0, 62135597800⟩,
    RefreshExpiresIn := 1800000000000 }

/-- Codec that knows the five tokens above. -/
def tokenCodec : Codec TokenInfo :=
  Codec.ofList
    [("json:code", tokenCode), ("json:access", tokenAccess), ("json:refresh", tokenRefresh),
      ("json:code+access", tokenCodeAccess), ("json:refresh-only", tokenRefreshOnly)]

/-- Store with an empty table and an empty diagnostic sink. -/
def emptyStore : TokenStore := ⟨⟨[], 0⟩, some []⟩

/-- Store with one authorization-code row and one token row whose payloads are not in the
dictionary of `tokenCodec`. -/
def corruptStore : TokenStore :=
  ⟨⟨[⟨1, 1600, "CODE1", "", "", "not json"⟩, ⟨2, 2800, "", "A2", "R2", "not json"⟩], 2⟩, some []⟩

/-- Store with one token row that expired at second 5. -/
def expiredStore : TokenStore :=
  ⟨⟨[⟨1, 5, "", "A1", "", "json:access"⟩], 1⟩, some []⟩

/-- Client `c1` with secret `s1` and domain `example.com`. -/
def clientC1 : ClientInfo := ⟨"c1", "s1", "example.com", false, ""⟩

/-- Codec that knows the client `c1`. -/
def clientCodec : Codec ClientInfo := Codec.ofList [("json:c1", clientC1)]

/-- Client store that holds the row of client `c1`. -/
def clientStoreC1 : ClientStore := ⟨[⟨"c1", "s1", "example.com", "json:c1"⟩], some []⟩

/-! ## Helper lemmas -/

theorem tdiv_spec (d : Int) :
    d = Int.tdiv d 1000000000 * 1000000000 + Int.tmod d 1000000000 ∧
    (0 ≤ d → 0 ≤ Int.tmod d 1000000000 ∧ Int.tmod d 1000000000 < 1000000000) ∧
    (d ≤ 0 → Int.tmod d 1000000000 ≤ 0 ∧ -1000000000 < Int.tmod d 1000000000) := by
  refine ⟨(Int.tdiv_add_tmod' d 1000000000).symm, ?_, ?_⟩
  · intro h
    exact ⟨Int.tmod_nonneg _ h, Int.tmod_lt_of_pos _ (by decide)⟩
  · intro h
    have hneg : 0 ≤ -d := by omega
    have h1 := Int.tmod_nonneg 1000000000 hneg
    have h2 := Int.tmod_lt_of_pos (-d) (show (0 : Int) < 1000000000 by decide)
    have e1 := Int.tmod_def (-d) 1000000000
    have e2 := Int.tmod_def d 1000000000
    rw [Int.neg_tdiv] at e1
    omega


theorem hasMonotonic_iff (t : Time) (hwall : t.wall < 18446744073709551616) :
    t.hasMonotonic = true ↔ 9223372036854775808 ≤ t.wall := by
  unfold Time.hasMonotonic
  rw [decide_eq_true_eq]
  omega

theorem sec_stripMono (t : Time) (hwall : t.wall < 18446744073709551616) :
    t.stripMono.sec = t.sec ∧ t.stripMono.hasMonotonic = false ∧
    t.stripMono.wall % 1073741824 = t.wall % 1073741824 ∧
    t.stripMono.wall < 18446744073709551616 := by
  unfold Time.stripMono
  by_cases hm : t.hasMonotonic = true
  · have hlow : (⟨t.wall % 1073741824, t.sec⟩ : Time).hasMonotonic = false := by
      unfold Time.hasMonotonic
      rw [decide_eq_false_iff_not]
      show ¬ (t.wall % 1073741824 / 9223372036854775808 % 2 = 1)
      omega
    simp only [hm, if_true]
    refine ⟨?_, hlow, ?_, ?_⟩
    · rw [Time.sec, hlow]
      simp
    · simp
    · show t.wall % 1073741824 < 18446744073709551616
      omega
  · simp only [hm]
    simp only [Bool.not_eq_true] at hm
    exact ⟨rfl, hm, rfl, hwall⟩


theorem wrapInt64_eq (x : Int) (h1 : -9223372036854775808 ≤ x) (h2 : x < 9223372036854775808) :
    wrapInt64 x = x := by
  unfold wrapInt64
  omega

theorem addSec_ext (u : Time) (d : Int)
    (hext : -4611686018427387904 - 59453308800 ≤ u.ext ∧ u.ext ≤ 4611686018427387904 + 59453308800)
    (hd : -34359738368 ≤ d ∧ d ≤ 34359738368) :
    (if decide (wrapInt64 (u.ext + d) > u.ext) = decide (d > 0) then
        ({ u with ext := wrapInt64 (u.ext + d) } : Time)
      else if d > 0 then { u with ext := 9223372036854775807 }
      else { u with ext := -9223372036854775807 }) = { u with ext := u.ext + d } := by
  have hwr : wrapInt64 (u.ext + d) = u.ext + d := by
    apply wrapInt64_eq <;> omega
  rw [hwr]
  have hiff : decide (u.ext + d > u.ext) = decide (d > 0) := by
    apply decide_eq_decide.mpr
    constructor <;> intro h <;> omega
  rw [if_pos hiff]

theorem sec_addSec (t : Time) (d : Int) (hwall : t.wall < 18446744073709551616)
    (hsec : -4611686018427387904 ≤ t.sec ∧ t.sec ≤ 4611686018427387904)
    (hd : -34359738368 ≤ d ∧ d ≤ 34359738368) :
    (t.addSec d).sec = t.sec + d ∧ (t.addSec d).wall < 18446744073709551616 ∧
    (t.addSec d).wall % 1073741824 = t.wall % 1073741824 := by
  have hmono := hasMonotonic_iff t hwall
  unfold Time.addSec
  by_cases hm : t.hasMonotonic = true
  · have hw := hmono.mp hm
    have hsecm : t.sec = 59453308800 + ((t.wall % 9223372036854775808 / 1073741824 : Nat) : Int) := by
      rw [Time.sec, if_pos hm]
    have hwr : wrapInt64 (((t.wall % 9223372036854775808 / 1073741824 : Nat) : Int) + d) =
        ((t.wall % 9223372036854775808 / 1073741824 : Nat) : Int) + d := by
      apply wrapInt64_eq <;> omega
    simp only [hwr, hm, true_and]
    by_cases hr : 0 ≤ ((t.wall % 9223372036854775808 / 1073741824 : Nat) : Int) + d ∧
        ((t.wall % 9223372036854775808 / 1073741824 : Nat) : Int) + d ≤ 8589934591
    · rw [if_pos hr]
      have hnew : (⟨t.wall % 1073741824 +
          (((t.wall % 9223372036854775808 / 1073741824 : Nat) : Int) + d).toNat * 1073741824 +
          9223372036854775808, t.ext⟩ : Time).hasMonotonic = true := by
        unfold Time.hasMonotonic
        rw [decide_eq_true_eq]
        show (t.wall % 1073741824 +
          (((t.wall % 9223372036854775808 / 1073741824 : Nat) : Int) + d).toNat * 1073741824 +
          9223372036854775808) / 9223372036854775808 % 2 = 1
        omega
      refine ⟨?_, ?_, ?_⟩
      · rw [Time.sec, if_pos hnew, hsecm]
        show (59453308800 : Int) + (((t.wall % 1073741824 +
          (((t.wall % 9223372036854775808 / 1073741824 : Nat) : Int) + d).toNat * 1073741824 +
          9223372036854775808) % 9223372036854775808 / 1073741824 : Nat) : Int) = _
        omega
      · show t.wall % 1073741824 +
          (((t.wall % 9223372036854775808 / 1073741824 : Nat) : Int) + d).toNat * 1073741824 +
          9223372036854775808 < 18446744073709551616
        omega
      · show (t.wall % 1073741824 +
          (((t.wall % 9223372036854775808 / 1073741824 : Nat) : Int) + d).toNat * 1073741824 +
          9223372036854775808) % 1073741824 = _
        omega
    · rw [if_neg hr]
      obtain ⟨hs1, hs2, hs3, hs4⟩ := sec_stripMono t hwall
      have hue : t.stripMono.ext = t.sec := by
        rw [← hs1, Time.sec, hs2]
        simp
      rw [addSec_ext t.stripMono d (by omega) hd]
      refine ⟨?_, hs4, hs3⟩
      rw [Time.sec]
      have : ({ t.stripMono with ext := t.stripMono.ext + d } : Time).hasMonotonic = false := hs2
      rw [this]
      simp [hue]
  · have hm2 : t.hasMonotonic = false := by simpa using hm
    have hstrip : t.stripMono = t := by
      unfold Time.stripMono
      simp [hm2]
    have hue : t.ext = t.sec := by
      rw [Time.sec, hm2]
      simp
    simp only [hm2, Bool.false_eq_true, false_and, if_false, hstrip]
    rw [addSec_ext t d (by omega) hd]
    refine ⟨?_, hwall, rfl⟩
    rw [Time.sec]
    have : ({ t with ext := t.ext + d } : Time).hasMonotonic = false := hm2
    rw [this]
    simp [hue]


theorem sec_setNsec (t : Time) (n : Int) (hwall : t.wall < 18446744073709551616)
    (hn : 0 ≤ n ∧ n < 1000000000) :
    ({ t with wall := t.wall - t.wall % 1073741824 + n.toNat } : Time).sec = t.sec ∧
    ({ t with wall := t.wall - t.wall % 1073741824 + n.toNat } : Time).wall <
      18446744073709551616 := by
  have hmono : ({ t with wall := t.wall - t.wall % 1073741824 + n.toNat } : Time).hasMonotonic =
      t.hasMonotonic := by
    unfold Time.hasMonotonic
    apply decide_eq_decide.mpr
    show (t.wall - t.wall % 1073741824 + n.toNat) / 9223372036854775808 % 2 = 1 ↔ _
    omega
  refine ⟨?_, ?_⟩
  · rw [Time.sec, Time.sec, hmono]
    show (if t.hasMonotonic = true then
        (59453308800 : Int) + (((t.wall - t.wall % 1073741824 + n.toNat) %
          9223372036854775808 / 1073741824 : Nat) : Int)
      else t.ext) = _
    have : (t.wall - t.wall % 1073741824 + n.toNat) % 9223372036854775808 / 1073741824 =
        t.wall % 9223372036854775808 / 1073741824 := by omega
    rw [this]
  · show t.wall - t.wall % 1073741824 + n.toNat < 18446744073709551616
    omega

theorem sec_monoStep (u : Time) (d : Int) (hwall : u.wall < 18446744073709551616) :
    (if u.hasMonotonic = true then
        if (d < 0 ∧ wrapInt64 (u.ext + d) > u.ext) ∨ (d > 0 ∧ wrapInt64 (u.ext + d) < u.ext) then
          u.stripMono
        else { u with ext := wrapInt64 (u.ext + d) }
      else u).sec = u.sec := by
  by_cases hm : u.hasMonotonic = true
  · rw [if_pos hm]
    split_ifs
    · exact (sec_stripMono u hwall).1
    · have : ({ u with ext := wrapInt64 (u.ext + d) } : Time).hasMonotonic = true := hm
      rw [Time.sec, Time.sec, this, hm]
      rfl
  · rw [if_neg hm]

/-- Within the stated range `Time.Add` followed by `Time.Unix` is exact: it is the exact
sum, in nanoseconds since the Unix epoch, rounded down to whole seconds. -/
theorem Unix_Add_exact (t : Time) (d : Int) (hrange : t.InRange d) :
    (t.Add d).Unix = (t.exactUnixNano + d) / 1000000000 := by
  obtain ⟨hwall, hns, hd1, hd2, hsec⟩ := hrange
  have hd : -9223372036854775808 ≤ d ∧ d < 9223372036854775808 := ⟨hd1, hd2⟩
  unfold Time.exactUnixNano
  obtain ⟨hqr, hpos, hneg⟩ := tdiv_spec d
  have hns0 : 0 ≤ t.nsec := by
    unfold Time.nsec
    omega
  -- the normalised pair of seconds and nanoseconds
  have hdn : ∃ q n : Int,
      (if t.nsec + Int.tmod d 1000000000 ≥ 1000000000 then
          (Int.tdiv d 1000000000 + 1, t.nsec + Int.tmod d 1000000000 - 1000000000)
        else if t.nsec + Int.tmod d 1000000000 < 0 then
          (Int.tdiv d 1000000000 - 1, t.nsec + Int.tmod d 1000000000 + 1000000000)
        else (Int.tdiv d 1000000000, t.nsec + Int.tmod d 1000000000)) = (q, n) ∧
      0 ≤ n ∧ n < 1000000000 ∧ q * 1000000000 + n = t.nsec + d := by
    rcases Int.le_total 0 d with h | h
    · have := hpos h
      split_ifs <;> exact ⟨_, _, rfl, by omega, by omega, by omega⟩
    · have := hneg h
      split_ifs <;> exact ⟨_, _, rfl, by omega, by omega, by omega⟩
  obtain ⟨q, n, hpair, hn0, hn1, hsum⟩ := hdn
  have hq : -34359738368 ≤ q ∧ q ≤ 34359738368 := by omega
  obtain ⟨hs1, hw1⟩ := sec_setNsec t n hwall ⟨hn0, hn1⟩
  obtain ⟨hs2, hw2, _⟩ :=
    sec_addSec ({ t with wall := t.wall - t.wall % 1073741824 + n.toNat } : Time) q hw1
      (by rw [hs1]; exact hsec) hq
  have hs3 := sec_monoStep
    (({ t with wall := t.wall - t.wall % 1073741824 + n.toNat } : Time).addSec q) d hw2
  have hadd : (t.Add d).sec = t.sec + q := by
    unfold Time.Add
    simp only [hpair]
    rw [hs3, hs2, hs1]
  unfold Time.Unix
  rw [hadd, wrapInt64_eq _ (by omega) (by omega)]
  omega

/-- At the ends of the `int64` range `Time.Add` saturates the second count and `Time.Unix`
wraps around: adding one second to the last representable instant leaves its Unix time
`9223371974719179007`, and one second after Unix second `9223372036854775807` (whose `ext`
has wrapped to `-9223372036854775808 + 62135596799`) the Unix time is `-9223372036854775808`. -/
theorem Unix_Add_extremes :
    ((⟨0, 9223372036854775807⟩ : Time).Add 1000000000).Unix = 9223371974719179007 ∧
    ((⟨0, -9223372036854775808 + 62135596799⟩ : Time).Add 1000000000).Unix =
      -9223372036854775808 := by
  decide

/-- A fault-free `Create` of an encodable token appends one row, described field by field. -/
theorem Create_appends (s : TokenStore) (c : Codec TokenInfo) (info : TokenInfo) (jv : String)
    (henc : jsonMarshal c info = .ok jv) :
    s.Create c none info =
      ({ s with db := ⟨s.db.rows ++
          [if info.GetCode ≠ "" then
              ⟨s.db.autoInc + 1, (info.GetCodeCreateAt.Add info.GetCodeExpiresIn).Unix,
                info.GetCode, "", "", jv⟩
            else if info.GetRefresh ≠ "" then
              ⟨s.db.autoInc + 1, (info.GetRefreshCreateAt.Add info.GetRefreshExpiresIn).Unix,
                "", info.GetAccess, info.GetRefresh, jv⟩
            else
              ⟨s.db.autoInc + 1, (info.GetAccessCreateAt.Add info.GetAccessExpiresIn).Unix,
                "", info.GetAccess, "", jv⟩],
          s.db.autoInc + 1⟩ }, none) := by
  unfold TokenStore.Create
  rw [henc]
  by_cases hc : info.GetCode = ""
  · by_cases hr : info.GetRefresh = ""
    · simp [hc, hr, Table.Create, default]
    · simp [hc, hr, Table.Create, default]
  · simp [hc, Table.Create, default]

/-- The row found by `Find` when no row satisfies the condition is the zero row. -/
theorem Find_none (t : Table) (cond : TokenStoreItem → Bool)
    (h : ∀ r ∈ t.rows, cond r = false) : t.Find cond = default := by
  unfold Table.Find
  have : t.rows.find? cond = none := by
    rw [List.find?_eq_none]
    intro r hr
    simp [h r hr]
  rw [this]
  rfl

/-- After a `RemoveByCode` that ran, the lookup of the same code yields no token and no error
other than the fault of its own query. -/
theorem GetByCode_after_RemoveByCode (s : TokenStore) (c : Codec TokenInfo) (code : String)
    (fault2 : Option String) :
    (s.RemoveByCode none code).1.GetByCode c fault2 code =
      (none, if code = "" then none else fault2) := by
  by_cases hcode : code = ""
  · simp [TokenStore.GetByCode, hcode]
  · have hfind : ((s.RemoveByCode none code).1.db.Find (fun r => r.Code == code)) = default := by
      apply Find_none
      intro r hr
      simp only [TokenStore.RemoveByCode, Table.Update, List.mem_map] at hr
      obtain ⟨r0, _, hr0⟩ := hr
      by_cases h0 : r0.Code = code
      · simp [h0] at hr0
        subst hr0
        simpa using fun h => hcode h.symm
      · simp [h0] at hr0
        subst hr0
        simpa using h0
    have hzero : (default : TokenStoreItem).ID = 0 := rfl
    unfold TokenStore.GetByCode
    cases fault2 with
    | none => simp [hcode, hfind, hzero]
    | some e => simp [hcode]

/-- The rows left by a tick whose count and delete statements run are the rows that do not
satisfy the condition of the sweep. -/
theorem gcTick_rows (s : TokenStore) (now : Int) :
    (s.gcTick ⟨now, none, none⟩).1.db.rows = s.db.rows.filter (fun r => !gcWhere now r) := by
  unfold TokenStore.gcTick
  by_cases hcount : s.db.Count (gcWhere now) > 0
  · simp [hcount, Table.Delete]
  · simp only [hcount, if_false]
    have hlen : (s.db.rows.filter (gcWhere now)).length = 0 := by
      unfold Table.Count at hcount
      omega
    have hnil : s.db.rows.filter (gcWhere now) = [] := List.length_eq_zero.mp hlen
    rw [List.filter_eq_nil_iff] at hnil
    symm
    rw [List.filter_eq_self]
    intro r hr
    simpa using hnil r hr

/-! ## Theorems -/

/-- C1: the row that a fault-free `Create` of an encodable token inserts has `ExpiredAt` equal
to the code's creation time plus the code TTL, in Unix seconds, when the code is non-empty;
otherwise to the refresh creation time plus the refresh TTL when the refresh value is
non-empty, whatever the access TTL; otherwise to the access creation time plus the access
TTL.  The sum and its conversion are Go's `Time.Add` and `Time.Unix`, for every token; when
the creation time and the TTL are in the range `Time.InRange`, where these neither saturate
nor wrap, the value is the exact sum in nanoseconds since the Unix epoch rounded down to
whole seconds. -/
theorem Create_expiredAt (s : TokenStore) (c : Codec TokenInfo) (info : TokenInfo) (jv : String)
    (henc : jsonMarshal c info = .ok jv) :
    ∃ row : TokenStoreItem,
      s.Create c none info = ({ s with db := ⟨s.db.rows ++ [row], s.db.autoInc + 1⟩ }, none) ∧
      (info.GetCode ≠ "" →
        row.ExpiredAt = (info.GetCodeCreateAt.Add info.GetCodeExpiresIn).Unix ∧
        (info.GetCodeCreateAt.InRange info.GetCodeExpiresIn →
          row.ExpiredAt =
            (info.GetCodeCreateAt.exactUnixNano + info.GetCodeExpiresIn) / 1000000000)) ∧
      (info.GetCode = "" → info.GetRefresh ≠ "" →
        row.ExpiredAt = (info.GetRefreshCreateAt.Add info.GetRefreshExpiresIn).Unix ∧
        (info.GetRefreshCreateAt.InRange info.GetRefreshExpiresIn →
          row.ExpiredAt =
            (info.GetRefreshCreateAt.exactUnixNano + info.GetRefreshExpiresIn) / 1000000000)) ∧
      (info.GetCode = "" → info.GetRefresh = "" →
        row.ExpiredAt = (info.GetAccessCreateAt.Add info.GetAccessExpiresIn).Unix ∧
        (info.GetAccessCreateAt.InRange info.GetAccessExpiresIn →
          row.ExpiredAt =
            (info.GetAccessCreateAt.exactUnixNano + info.GetAccessExpiresIn) / 1000000000)) := by
  refine ⟨_, Create_appends s c info jv henc, ?_, ?_, ?_⟩
  · intro hc
    have hrow : (if info.GetCode ≠ "" then
          (⟨s.db.autoInc + 1, (info.GetCodeCreateAt.Add info.GetCodeExpiresIn).Unix,
            info.GetCode, "", "", jv⟩ : TokenStoreItem)
        else if info.GetRefresh ≠ "" then
          ⟨s.db.autoInc + 1, (info.GetRefreshCreateAt.Add info.GetRefreshExpiresIn).Unix,
            "", info.GetAccess, info.GetRefresh, jv⟩
        else
          ⟨s.db.autoInc + 1, (info.GetAccessCreateAt.Add info.GetAccessExpiresIn).Unix,
            "", info.GetAccess, "", jv⟩).ExpiredAt =
        (info.GetCodeCreateAt.Add info.GetCodeExpiresIn).Unix := by
      rw [if_pos hc]
    refine ⟨hrow, ?_⟩
    intro hrange
    rw [hrow]
    exact Unix_Add_exact _ _ hrange
  · intro hc hr
    have hrow : (if info.GetCode ≠ "" then
          (⟨s.db.autoInc + 1, (info.GetCodeCreateAt.Add info.GetCodeExpiresIn).Unix,
            info.GetCode, "", "", jv⟩ : TokenStoreItem)
        else if info.GetRefresh ≠ "" then
          ⟨s.db.autoInc + 1, (info.GetRefreshCreateAt.Add info.GetRefreshExpiresIn).Unix,
            "", info.GetAccess, info.GetRefresh, jv⟩
        else
          ⟨s.db.autoInc + 1, (info.GetAccessCreateAt.Add info.GetAccessExpiresIn).Unix,
            "", info.GetAccess, "", jv⟩).ExpiredAt =
        (info.GetRefreshCreateAt.Add info.GetRefreshExpiresIn).Unix := by
      rw [if_neg (not_not.mpr hc), if_pos hr]
    refine ⟨hrow, ?_⟩
    intro hrange
    rw [hrow]
    exact Unix_Add_exact _ _ hrange
  · intro hc hr
    have hrow : (if info.GetCode ≠ "" then
          (⟨s.db.autoInc + 1, (info.GetCodeCreateAt.Add info.GetCodeExpiresIn).Unix,
            info.GetCode, "", "", jv⟩ : TokenStoreItem)
        else if info.GetRefresh ≠ "" then
          ⟨s.db.autoInc + 1, (info.GetRefreshCreateAt.Add info.GetRefreshExpiresIn).Unix,
            "", info.GetAccess, info.GetRefresh, jv⟩
        else
          ⟨s.db.autoInc + 1, (info.GetAccessCreateAt.Add info.GetAccessExpiresIn).Unix,
            "", info.GetAccess, "", jv⟩).ExpiredAt =
        (info.GetAccessCreateAt.Add info.GetAccessExpiresIn).Unix := by
      rw [if_neg (not_not.mpr hc), if_neg (not_not.mpr hr)]
    refine ⟨hrow, ?_⟩
    intro hrange
    rw [hrow]
    exact Unix_Add_exact _ _ hrange

/-- Witness for C1: the access and refresh token with access TTL 7200 s and refresh TTL 1800 s,
both created at Unix second 1000, is in range and is stored with `ExpiredAt = 2800`; the
access-only token, whose creation time carries a monotonic clock reading, is in range and is
stored with `ExpiredAt = 4600`. -/
theorem Create_expiredAt_witness :
    jsonMarshal tokenCodec tokenRefresh = .ok "json:refresh" ∧
    tokenRefresh.GetRefreshCreateAt.InRange tokenRefresh.GetRefreshExpiresIn ∧
    (∃ row : TokenStoreItem,
      emptyStore.Create tokenCodec none tokenRefresh = (⟨⟨[row], 1⟩, some []⟩, none) ∧
      row.ExpiredAt = 2800) ∧
    jsonMarshal tokenCodec tokenAccess = .ok "json:access" ∧
    tokenAccess.GetAccessCreateAt.InRange tokenAccess.GetAccessExpiresIn ∧
    (∃ row : TokenStoreItem,
      emptyStore.Create tokenCodec none tokenAccess = (⟨⟨[row], 1⟩, some []⟩, none) ∧
      row.ExpiredAt = 4600) := by
  refine ⟨rfl, by decide, ?_, rfl, by decide, ?_⟩
  · obtain ⟨row, hrow, _, href, _⟩ :=
      Create_expiredAt emptyStore tokenCodec tokenRefresh "json:refresh" rfl
    refine ⟨row, hrow, ?_⟩
    rw [(href rfl (by decide)).2 (by decide)]
    decide
  · obtain ⟨row, hrow, _, _, hacc⟩ :=
      Create_expiredAt emptyStore tokenCodec tokenAccess "json:access" rfl
    refine ⟨row, hrow, ?_⟩
    rw [(hacc rfl rfl).2 (by decide)]
    decide

/-- Counterexample to C9 as stated: the row inserted for a token that carries a refresh value
only has code and access both empty, so it has neither of the two grant shapes. -/
theorem Create_shape_counterexample :
    jsonMarshal tokenCodec tokenRefreshOnly = .ok "json:refresh-only" ∧
    emptyStore.Create tokenCodec none tokenRefreshOnly =
      (⟨⟨[⟨1, 2800, "", "", "R4", "json:refresh-only"⟩], 1⟩, some []⟩, none) ∧
    ¬ (∃ row : TokenStoreItem,
        emptyStore.Create tokenCodec none tokenRefreshOnly = (⟨⟨[row], 1⟩, some []⟩, none) ∧
        ((row.Code ≠ "" ∧ row.Access = "" ∧ row.Refresh = "") ∨
          (row.Code = "" ∧ row.Access ≠ ""))) := by
  refine ⟨rfl, by decide, ?_⟩
  rintro ⟨row, hrow, hshape⟩
  have hrows : row = ⟨1, 2800, "", "", "R4", "json:refresh-only"⟩ := by
    have h := congrArg (fun p : TokenStore × Option String => p.1.db.rows) hrow
    have h2 : (emptyStore.Create tokenCodec none tokenRefreshOnly).1.db.rows =
        [⟨1, 2800, "", "", "R4", "json:refresh-only"⟩] := by decide
    simp only [h2] at h
    simpa using h.symm
  subst hrows
  revert hshape
  decide

/-- C9 (amended): the row that a fault-free `Create` of an encodable token inserts takes its
code from the token and has access and refresh empty when the token's code is non-empty, and
otherwise has an empty code and the token's access and refresh values.  When the token's code
or access is non-empty the row has exactly one of the two grant shapes, and no inserted row
has both code and access non-empty. -/
theorem Create_shape (s : TokenStore) (c : Codec TokenInfo) (info : TokenInfo) (jv : String)
    (henc : jsonMarshal c info = .ok jv) :
    ∃ row : TokenStoreItem,
      s.Create c none info = ({ s with db := ⟨s.db.rows ++ [row], s.db.autoInc + 1⟩ }, none) ∧
      (info.GetCode ≠ "" → row.Code = info.GetCode ∧ row.Access = "" ∧ row.Refresh = "") ∧
      (info.GetCode = "" →
        row.Code = "" ∧ row.Access = info.GetAccess ∧ row.Refresh = info.GetRefresh) ∧
      (info.GetCode ≠ "" ∨ info.GetAccess ≠ "" →
        Xor' (row.Code ≠ "" ∧ row.Access = "" ∧ row.Refresh = "")
          (row.Code = "" ∧ row.Access ≠ "")) ∧
      ¬ (row.Code ≠ "" ∧ row.Access ≠ "") := by
  refine ⟨_, Create_appends s c info jv henc, ?_, ?_, ?_, ?_⟩
  · intro hc
    simp [hc]
  · intro hc
    by_cases hr : info.GetRefresh = "" <;> simp [hc, hr]
  · intro h
    by_cases hc : info.GetCode = ""
    · have ha : info.GetAccess ≠ "" := by
        rcases h with h | h
        · exact absurd hc h
        · exact h
      by_cases hr : info.GetRefresh = "" <;> simp [hc, hr, ha, Xor']
    · simp [hc, Xor']
  · by_cases hc : info.GetCode = ""
    · by_cases hr : info.GetRefresh = "" <;> simp [hc, hr]
    · simp [hc]

/-- Witness for C9: the authorization-code token is stored with its code and with access and
refresh empty. -/
theorem Create_shape_witness :
    jsonMarshal tokenCodec tokenCode = .ok "json:code" ∧
    ∃ row : TokenStoreItem,
      emptyStore.Create tokenCodec none tokenCode = (⟨⟨[row], 1⟩, some []⟩, none) ∧
      row.Code = "CODE1" ∧ row.Access = "" ∧ row.Refresh = "" := by
  refine ⟨rfl, ?_⟩
  obtain ⟨row, hrow, hcode, _, _, _⟩ :=
    Create_shape emptyStore tokenCodec tokenCode "json:code" rfl
  exact ⟨row, hrow, hcode (by decide)⟩

/-- Counterexample to C2 as stated: a token with a non-empty code and a non-empty access value
is stored under its code alone, so the lookup by its access value finds nothing. -/
theorem Create_GetByAccess_counterexample :
    tokenCodeAccess.GetAccess ≠ "" ∧
    jsonMarshal tokenCodec tokenCodeAccess = .ok "json:code+access" ∧
    jsonUnmarshal tokenCodec "json:code+access" = (tokenCodeAccess, none) ∧
    (∀ r ∈ emptyStore.db.rows, r.Access ≠ tokenCodeAccess.GetAccess) ∧
    emptyStore.Create tokenCodec none tokenCodeAccess =
      (⟨⟨[⟨1, 1600, "CODE3", "", "", "json:code+access"⟩], 1⟩, some []⟩, none) ∧
    (emptyStore.Create tokenCodec none tokenCodeAccess).1.GetByAccess tokenCodec none
      tokenCodeAccess.GetAccess = (none, none) := by
  refine ⟨by decide, rfl, by decide, ?_, by decide, by decide⟩
  intro r hr
  simp [emptyStore] at hr

/-- C2 (amended): for every token with an empty code and a non-empty access value whose payload
decodes back to the token, on a store with no row carrying that access value and without
storage fault, `Create` succeeds and the following `GetByAccess` of the access value returns
the token. -/
theorem Create_GetByAccess (s : TokenStore) (c : Codec TokenInfo) (info : TokenInfo)
    (jv : String) (hcode : info.GetCode = "") (haccess : info.GetAccess ≠ "")
    (henc : jsonMarshal c info = .ok jv) (hdec : jsonUnmarshal c jv = (info, none))
    (hfresh : ∀ r ∈ s.db.rows, r.Access ≠ info.GetAccess) :
    (s.Create c none info).2 = none ∧
    (s.Create c none info).1.GetByAccess c none info.GetAccess = (some info, none) := by
  rw [Create_appends s c info jv henc]
  refine ⟨rfl, ?_⟩
  have hnone : s.db.rows.find? (fun r => r.Access == info.GetAccess) = none := by
    rw [List.find?_eq_none]
    intro r hr
    simpa using hfresh r hr
  unfold TokenStore.GetByAccess Table.Find
  by_cases hr : info.GetRefresh = "" <;>
    simp [hcode, haccess, hr, hnone, List.find?_append, TokenStore.toTokenInfo, hdec]

/-- Witness for C2: the access-only token is created in the empty store and found again. -/
theorem Create_GetByAccess_witness :
    (emptyStore.Create tokenCodec none tokenAccess).1.GetByAccess tokenCodec none "A1" =
      (some tokenAccess, none) :=
  (Create_GetByAccess emptyStore tokenCodec tokenAccess "json:access" rfl (by decide) rfl
    (by decide) (by intro r hr; simp [emptyStore] at hr)).2

/-- Counterexample to C3 as stated: each lookup finds a row whose payload does not decode and
returns the Absent outcome (nil token, nil error), not an error. -/
theorem GetBy_undecodable_counterexample :
    corruptStore.db.rows.find? (fun r => r.Code == "CODE1") =
      some ⟨1, 1600, "CODE1", "", "", "not json"⟩ ∧
    corruptStore.db.rows.find? (fun r => r.Access == "A2") =
      some ⟨2, 2800, "", "A2", "R2", "not json"⟩ ∧
    corruptStore.db.rows.find? (fun r => r.Refresh == "R2") =
      some ⟨2, 2800, "", "A2", "R2", "not json"⟩ ∧
    jsonUnmarshal tokenCodec "not json" = (default, some "invalid character") ∧
    corruptStore.GetByCode tokenCodec none "CODE1" = (none, none) ∧
    corruptStore.GetByAccess tokenCodec none "A2" = (none, none) ∧
    corruptStore.GetByRefresh tokenCodec none "R2" = (none, none) := by
  decide

/-- C3 (amended): for each of `GetByCode`, `GetByAccess` and `GetByRefresh` with a non-empty
key and no storage fault, when the row found for the key has a payload that cannot be decoded,
the lookup returns the Absent outcome (nil token with nil error); a lookup returns an error
only when the storage query fails, and then that error. -/
theorem GetBy_undecodable (s : TokenStore) (c : Codec TokenInfo) (key : String)
    (r : TokenStoreItem) (hkey : key ≠ "") (hdec : (jsonUnmarshal c r.Data).2 ≠ none) :
    (s.db.rows.find? (fun x => x.Code == key) = some r →
      s.GetByCode c none key = (none, none)) ∧
    (s.db.rows.find? (fun x => x.Access == key) = some r →
      s.GetByAccess c none key = (none, none)) ∧
    (s.db.rows.find? (fun x => x.Refresh == key) = some r →
      s.GetByRefresh c none key = (none, none)) ∧
    (∀ fault e, (s.GetByCode c fault key).2 = some e → fault = some e) ∧
    (∀ fault e, (s.GetByAccess c fault key).2 = some e → fault = some e) ∧
    (∀ fault e, (s.GetByRefresh c fault key).2 = some e → fault = some e) := by
  have htok : s.toTokenInfo c r.Data = none := by
    unfold TokenStore.toTokenInfo
    rcases hj : jsonUnmarshal c r.Data with ⟨tm, err⟩
    rw [hj] at hdec
    cases err with
    | none => exact absurd rfl hdec
    | some e => rfl
  refine ⟨?_, ?_, ?_, ?_, ?_, ?_⟩
  · intro hfind
    unfold TokenStore.GetByCode Table.Find
    simp [hkey, hfind, htok]
  · intro hfind
    unfold TokenStore.GetByAccess Table.Find
    simp [hkey, hfind, htok]
  · intro hfind
    unfold TokenStore.GetByRefresh Table.Find
    simp [hkey, hfind, htok]
  · intro fault e
    unfold TokenStore.GetByCode
    cases fault with
    | none => simp only [hkey, if_false]; split_ifs <;> simp
    | some f => simp [hkey]
  · intro fault e
    unfold TokenStore.GetByAccess
    cases fault with
    | none => simp only [hkey, if_false]; split_ifs <;> simp
    | some f => simp [hkey]
  · intro fault e
    unfold TokenStore.GetByRefresh
    cases fault with
    | none => simp only [hkey, if_false]; split_ifs <;> simp
    | some f => simp [hkey]

/-- Witness for C3: the lookup by code `CODE1` in the store with undecodable payloads. -/
theorem GetBy_undecodable_witness :
    corruptStore.GetByCode tokenCodec none "CODE1" = (none, none) :=
  (GetBy_undecodable corruptStore tokenCodec "CODE1" ⟨1, 1600, "CODE1", "", "", "not json"⟩
    (by decide) (by decide)).1 (by decide)

/-- C8: after a `RemoveByCode` of a code that returned no error, `GetByCode` of that code
returns no token under any outcome of its query, and without storage fault it returns the
Absent outcome (nil token, nil error). -/
theorem RemoveByCode_GetByCode (s : TokenStore) (c : Codec TokenInfo) (fault : Option String)
    (code : String) (hok : (s.RemoveByCode fault code).2 = none) :
    (s.RemoveByCode fault code).1.GetByCode c none code = (none, none) ∧
    ∀ fault2, ((s.RemoveByCode fault code).1.GetByCode c fault2 code).1 = none := by
  have hfault : fault = none := by
    cases fault with
    | none => rfl
    | some e => simp [TokenStore.RemoveByCode] at hok
  subst hfault
  refine ⟨?_, ?_⟩
  · rw [GetByCode_after_RemoveByCode]
    simp
  · intro fault2
    rw [GetByCode_after_RemoveByCode]

/-- Witness for C8: the code `CODE1` of the created authorization-code token is removed and
then looked up. -/
theorem RemoveByCode_GetByCode_witness :
    (((emptyStore.Create tokenCodec none tokenCode).1.RemoveByCode none "CODE1").1.GetByCode
      tokenCodec none "CODE1") = (none, none) :=
  (RemoveByCode_GetByCode (emptyStore.Create tokenCodec none tokenCode).1 tokenCodec none
    "CODE1" rfl).1

/-- C7: for every table state, key and storage outcome, each of `RemoveByCode`,
`RemoveByAccess` and `RemoveByRefresh` keeps the number of rows (and the auto-increment
counter and the diagnostic sink), leaves the id, `ExpiredAt`, payload and the two other
identifier fields of every row as they were, and changes its own field only to the empty
string and only on the rows whose field equals the key, on all of them when the statement
runs; when no row matches, the table is unchanged and the call returns no error. -/
theorem RemoveBy_frame (s : TokenStore) (fault : Option String) (key : String) :
    ((s.RemoveByCode fault key).1.db.rows.length = s.db.rows.length ∧
      (s.RemoveByCode fault key).1.db.autoInc = s.db.autoInc ∧
      (s.RemoveByCode fault key).1.stdout = s.stdout ∧
      List.Forall₂
        (fun old new : TokenStoreItem =>
          new.ID = old.ID ∧ new.ExpiredAt = old.ExpiredAt ∧ new.Data = old.Data ∧
          new.Access = old.Access ∧ new.Refresh = old.Refresh ∧
          new.Code = if old.Code = key ∧ fault = none then "" else old.Code)
        s.db.rows (s.RemoveByCode fault key).1.db.rows ∧
      ((∀ r ∈ s.db.rows, r.Code ≠ key) → s.RemoveByCode none key = (s, none))) ∧
    ((s.RemoveByAccess fault key).1.db.rows.length = s.db.rows.length ∧
      (s.RemoveByAccess fault key).1.db.autoInc = s.db.autoInc ∧
      (s.RemoveByAccess fault key).1.stdout = s.stdout ∧
      List.Forall₂
        (fun old new : TokenStoreItem =>
          new.ID = old.ID ∧ new.ExpiredAt = old.ExpiredAt ∧ new.Data = old.Data ∧
          new.Code = old.Code ∧ new.Refresh = old.Refresh ∧
          new.Access = if old.Access = key ∧ fault = none then "" else old.Access)
        s.db.rows (s.RemoveByAccess fault key).1.db.rows ∧
      ((∀ r ∈ s.db.rows, r.Access ≠ key) → s.RemoveByAccess none key = (s, none))) ∧
    ((s.RemoveByRefresh fault key).1.db.rows.length = s.db.rows.length ∧
      (s.RemoveByRefresh fault key).1.db.autoInc = s.db.autoInc ∧
      (s.RemoveByRefresh fault key).1.stdout = s.stdout ∧
      List.Forall₂
        (fun old new : TokenStoreItem =>
          new.ID = old.ID ∧ new.ExpiredAt = old.ExpiredAt ∧ new.Data = old.Data ∧
          new.Code = old.Code ∧ new.Access = old.Access ∧
          new.Refresh = if old.Refresh = key ∧ fault = none then "" else old.Refresh)
        s.db.rows (s.RemoveByRefresh fault key).1.db.rows ∧
      ((∀ r ∈ s.db.rows, r.Refresh ≠ key) → s.RemoveByRefresh none key = (s, none))) := by
  refine ⟨⟨?_, ?_, ?_, ?_, ?_⟩, ⟨?_, ?_, ?_, ?_, ?_⟩, ⟨?_, ?_, ?_, ?_, ?_⟩⟩
  · cases fault <;> simp [TokenStore.RemoveByCode, Table.Update]
  · cases fault <;> simp [TokenStore.RemoveByCode, Table.Update]
  · cases fault <;> simp [TokenStore.RemoveByCode, Table.Update]
  · cases fault with
    | some e => simp [TokenStore.RemoveByCode, List.forall₂_same]
    | none =>
      simp only [TokenStore.RemoveByCode, Table.Update, List.forall₂_map_right_iff,
        List.forall₂_same]
      intro r _
      by_cases h : r.Code = key <;> simp [h]
  · intro hno
    have hmap : s.db.rows.map
        (fun r => if (r.Code == key) = true then { r with Code := "" } else r) = s.db.rows := by
      conv_rhs => rw [← List.map_id s.db.rows]
      apply List.map_congr_left
      intro r hr
      simp [hno r hr]
    simp only [TokenStore.RemoveByCode, Table.Update, hmap]
  · cases fault <;> simp [TokenStore.RemoveByAccess, Table.Update]
  · cases fault <;> simp [TokenStore.RemoveByAccess, Table.Update]
  · cases fault <;> simp [TokenStore.RemoveByAccess, Table.Update]
  · cases fault with
    | some e => simp [TokenStore.RemoveByAccess, List.forall₂_same]
    | none =>
      simp only [TokenStore.RemoveByAccess, Table.Update, List.forall₂_map_right_iff,
        List.forall₂_same]
      intro r _
      by_cases h : r.Access = key <;> simp [h]
  · intro hno
    have hmap : s.db.rows.map
        (fun r => if (r.Access == key) = true then { r with Access := "" } else r) =
          s.db.rows := by
      conv_rhs => rw [← List.map_id s.db.rows]
      apply List.map_congr_left
      intro r hr
      simp [hno r hr]
    simp only [TokenStore.RemoveByAccess, Table.Update, hmap]
  · cases fault <;> simp [TokenStore.RemoveByRefresh, Table.Update]
  · cases fault <;> simp [TokenStore.RemoveByRefresh, Table.Update]
  · cases fault <;> simp [TokenStore.RemoveByRefresh, Table.Update]
  · cases fault with
    | some e => simp [TokenStore.RemoveByRefresh, List.forall₂_same]
    | none =>
      simp only [TokenStore.RemoveByRefresh, Table.Update, List.forall₂_map_right_iff,
        List.forall₂_same]
      intro r _
      by_cases h : r.Refresh = key <;> simp [h]
  · intro hno
    have hmap : s.db.rows.map
        (fun r => if (r.Refresh == key) = true then { r with Refresh := "" } else r) =
          s.db.rows := by
      conv_rhs => rw [← List.map_id s.db.rows]
      apply List.map_congr_left
      intro r hr
      simp [hno r hr]
    simp only [TokenStore.RemoveByRefresh, Table.Update, hmap]

/-- Witness for C7: removing a refresh value that no row of the store carries leaves the store
as it was and returns no error. -/
theorem RemoveBy_frame_witness :
    corruptStore.RemoveByRefresh none "R9" = (corruptStore, none) :=
  (RemoveBy_frame corruptStore none "R9").2.2.2.2.2.2 (by decide)

/-- C5: for every table state and every time `now`, one garbage-collector tick whose count and
delete statements run keeps exactly the rows with `now < ExpiredAt` and at least one non-empty
identifier, unchanged and in their order, and removes every row with `ExpiredAt <= now` or
with code, access and refresh all empty; the loop goes on after the tick. -/
theorem gcTick_sweep (s : TokenStore) (now : Int) :
    (s.gcTick ⟨now, none, none⟩).1.db.rows =
      s.db.rows.filter
        (fun r => decide (now < r.ExpiredAt ∧ (r.Code ≠ "" ∨ r.Access ≠ "" ∨ r.Refresh ≠ ""))) ∧
    (∀ r, r ∈ (s.gcTick ⟨now, none, none⟩).1.db.rows ↔
      r ∈ s.db.rows ∧ ¬ (r.ExpiredAt ≤ now ∨ (r.Code = "" ∧ r.Access = "" ∧ r.Refresh = ""))) ∧
    (s.gcTick ⟨now, none, none⟩).1.db.autoInc = s.db.autoInc ∧
    (s.gcTick ⟨now, none, none⟩).1.stdout = s.stdout ∧
    (s.gcTick ⟨now, none, none⟩).2 = true := by
  have hcond : ∀ r : TokenStoreItem,
      (!gcWhere now r) =
        decide (now < r.ExpiredAt ∧ (r.Code ≠ "" ∨ r.Access ≠ "" ∨ r.Refresh ≠ "")) := by
    intro r
    rw [Bool.eq_iff_iff]
    simp only [gcWhere, Bool.not_eq_true', Bool.or_eq_false_iff, Bool.and_eq_false_iff,
      decide_eq_false_iff_not, decide_eq_true_eq, not_le, beq_eq_false_iff_ne, ne_eq]
    tauto
  have hrows := gcTick_rows s now
  have hfilter : s.db.rows.filter (fun r => !gcWhere now r) =
      s.db.rows.filter
        (fun r => decide (now < r.ExpiredAt ∧ (r.Code ≠ "" ∨ r.Access ≠ "" ∨ r.Refresh ≠ ""))) := by
    congr 1
    funext r
    exact hcond r
  refine ⟨hrows.trans hfilter, ?_, ?_, ?_, ?_⟩
  · intro r
    rw [hrows.trans hfilter, List.mem_filter]
    simp only [decide_eq_true_eq, not_or, not_le, not_and]
    constructor
    · rintro ⟨hr, hlt, hid⟩
      refine ⟨hr, hlt, ?_⟩
      intro hc ha hf
      rcases hid with h | h | h
      · exact h hc
      · exact h ha
      · exact h hf
    · rintro ⟨hr, hlt, hid⟩
      refine ⟨hr, hlt, ?_⟩
      by_cases hc : r.Code = ""
      · by_cases ha : r.Access = ""
        · exact Or.inr (Or.inr (hid hc ha))
        · exact Or.inr (Or.inl ha)
      · exact Or.inl hc
  · unfold TokenStore.gcTick
    by_cases hcount : s.db.Count (gcWhere now) > 0 <;> simp [hcount, Table.Delete]
  · unfold TokenStore.gcTick
    by_cases hcount : s.db.Count (gcWhere now) > 0 <;> simp [hcount]
  · unfold TokenStore.gcTick
    by_cases hcount : s.db.Count (gcWhere now) > 0 <;> simp [hcount]

/-- C10: for every encodable token with a non-empty code and every table state, after a
fault-free `Create` and `RemoveByCode` of the code the created row is still in the table with
code, access and refresh empty and `GetByCode` of the code returns the Absent outcome; after
one garbage-collector tick whose statements run, at any time `now`, that row is not in the
table, and no row with its id is when the ids of the initial table are at most the
auto-increment counter. -/
theorem Create_RemoveByCode_gc (s : TokenStore) (c : Codec TokenInfo) (info : TokenInfo)
    (jv : String) (now : Int) (hcode : info.GetCode ≠ "")
    (henc : jsonMarshal c info = .ok jv) :
    (s.Create c none info).2 = none ∧
    ((s.Create c none info).1.RemoveByCode none info.GetCode).2 = none ∧
    (⟨s.db.autoInc + 1, (info.GetCodeCreateAt.Add info.GetCodeExpiresIn).Unix, "", "", "", jv⟩
      : TokenStoreItem) ∈ ((s.Create c none info).1.RemoveByCode none info.GetCode).1.db.rows ∧
    ((s.Create c none info).1.RemoveByCode none info.GetCode).1.GetByCode c none info.GetCode =
      (none, none) ∧
    (⟨s.db.autoInc + 1, (info.GetCodeCreateAt.Add info.GetCodeExpiresIn).Unix, "", "", "", jv⟩
      : TokenStoreItem) ∉
      (((s.Create c none info).1.RemoveByCode none info.GetCode).1.gcTick
        ⟨now, none, none⟩).1.db.rows ∧
    ((∀ r ∈ s.db.rows, r.ID ≤ s.db.autoInc) →
      ∀ r ∈ (((s.Create c none info).1.RemoveByCode none info.GetCode).1.gcTick
        ⟨now, none, none⟩).1.db.rows, r.ID ≠ s.db.autoInc + 1) := by
  have hrows : ((s.Create c none info).1.RemoveByCode none info.GetCode).1.db.rows =
      s.db.rows.map (fun r => if (r.Code == info.GetCode) = true then { r with Code := "" } else r)
        ++ [⟨s.db.autoInc + 1, (info.GetCodeCreateAt.Add info.GetCodeExpiresIn).Unix,
              "", "", "", jv⟩] := by
    rw [Create_appends s c info jv henc]
    simp [TokenStore.RemoveByCode, Table.Update, hcode]
  have hget := GetByCode_after_RemoveByCode (s.Create c none info).1 c info.GetCode none
  simp only [ite_self] at hget
  have hsweep := gcTick_rows ((s.Create c none info).1.RemoveByCode none info.GetCode).1 now
  refine ⟨?_, rfl, ?_, hget, ?_, ?_⟩
  · rw [Create_appends s c info jv henc]
  · rw [hrows]
    simp
  · rw [hsweep, List.mem_filter]
    simp [gcWhere]
  · intro hwf r hr
    rw [hsweep, List.mem_filter, hrows, List.mem_append, List.mem_map] at hr
    obtain ⟨hmem, hkeep⟩ := hr
    rcases hmem with ⟨r0, hr0, hmap⟩ | hnew
    · have hid : r.ID = r0.ID := by
        rw [← hmap]
        split_ifs <;> rfl
      have := hwf r0 hr0
      omega
    · rw [List.mem_singleton] at hnew
      subst hnew
      simp [gcWhere] at hkeep

/-- Witness for C10: the authorization-code token `CODE1` is created in the empty store, its
code is removed, and a tick at second 0, before the expiry 1600, deletes the row. -/
theorem Create_RemoveByCode_gc_witness :
    (((emptyStore.Create tokenCodec none tokenCode).1.RemoveByCode none "CODE1").1.db.rows =
      [⟨1, 1600, "", "", "", "json:code"⟩]) ∧
    (⟨1, 1600, "", "", "", "json:code"⟩ : TokenStoreItem) ∉
      (((emptyStore.Create tokenCodec none tokenCode).1.RemoveByCode none "CODE1").1.gcTick
        ⟨0, none, none⟩).1.db.rows :=
  ⟨by decide,
    (Create_RemoveByCode_gc emptyStore tokenCodec tokenCode "json:code" 0 (by decide) rfl).2.2.2.2.1⟩

/-- C4 (what the code does): for a non-empty id that matches no stored client row, without
storage fault, `GetByID` returns the zero client together with the JSON error for empty input,
not the Absent outcome. -/
theorem GetByID_no_match (s : ClientStore) (c : Codec ClientInfo) (id : String)
    (hid : id ≠ "") (hno : ∀ r ∈ s.db, r.ID ≠ id) :
    s.GetByID c none id = (some default, some "unexpected end of JSON input") := by
  have hfind : s.db.find? (fun r => r.ID == id) = none := by
    rw [List.find?_eq_none]
    intro r hr
    simpa using hno r hr
  have hdata : (default : ClientStoreItem).Data = "" := rfl
  simp [ClientStore.GetByID, hid, hfind, ClientStore.toClientInfo, jsonUnmarshal, hdata]

/-- Witness for C4: in the store that holds client `c1`, `GetByID` finds `c1`, and for the
unknown id `c2` it returns a zero client and an error. -/
theorem GetByID_no_match_witness :
    ClientStore.Create ⟨[], some []⟩ clientCodec none clientC1 = (clientStoreC1, none) ∧
    clientStoreC1.GetByID clientCodec none "c1" = (some clientC1, none) ∧
    clientStoreC1.GetByID clientCodec none "" = (none, none) ∧
    clientStoreC1.GetByID clientCodec none "c2" =
      (some ⟨"", "", "", false, ""⟩, some "unexpected end of JSON input") :=
  ⟨by decide, by decide, by decide,
    GetByID_no_match clientStoreC1 clientCodec "c2" (by decide) (by decide)⟩

/-- C6 (what the code does): when the count query of a tick fails, `gc` writes the fault to the
diagnostic sink, leaves the table as it was, and returns: none of the later ticks is run. -/
theorem gc_count_fault (s : TokenStore) (tk : Tick) (rest : List Tick) (err : String)
    (hfault : tk.countFault = some err) :
    s.gc (tk :: rest) = s.errorf ("[ERROR]:" ++ err ++ "\n") ∧
    (s.gc (tk :: rest)).db = s.db ∧
    (∀ out, s.stdout = some out →
      (s.gc (tk :: rest)).stdout = some (out ++ ["[ERROR]:" ++ err ++ "\n"])) := by
  have hgc : s.gc (tk :: rest) = s.errorf ("[ERROR]:" ++ err ++ "\n") := by
    simp [TokenStore.gc, TokenStore.gcTick, hfault]
  refine ⟨hgc, ?_, ?_⟩
  · rw [hgc]
    unfold TokenStore.errorf
    cases s.stdout <;> rfl
  · intro out hout
    rw [hgc]
    unfold TokenStore.errorf
    rw [hout]

/-- Witness for C6: with an expired row in the table, a tick whose count fails followed by a
tick whose statements run leaves the row in the table, although the second tick alone deletes
it. -/
theorem gc_count_fault_witness :
    expiredStore.gc [⟨10, some "connection refused", none⟩, ⟨20, none, none⟩] =
      ⟨⟨[⟨1, 5, "", "A1", "", "json:access"⟩], 1⟩, some ["[ERROR]:connection refused\n"]⟩ ∧
    expiredStore.gc [⟨20, none, none⟩] = ⟨⟨[], 1⟩, some []⟩ :=
  ⟨(gc_count_fault expiredStore ⟨10, some "connection refused", none⟩ [⟨20, none, none⟩]
      "connection refused" rfl).1.trans (by decide),
    by decide⟩

end oauth2gorm
